import Mathlib

/-!
Verification development for the diagram-generation core of this repository:
the icon-inventory extraction, provider detection, generation-result parsing
and the icon-path validation / repair pipeline (`ai-instruct` module and the
`/api/generate` route).

The JavaScript sources are shallowly embedded: strings are Lean `String`
(the sources only handle ASCII paths and names, so UTF-16 `length` agrees
with the character count), a JavaScript `Map` is an insertion-ordered
association list (`set` overwrites the value at the key's original position,
iteration follows insertion order), numbers used by the similarity scores
are modelled exactly as rationals, and the few I/O points (filesystem
directory listing) are explicit `Option` parameters.
-/

/-! ## JavaScript string primitives -/

/-- `listStarts p l`: the character list `l` starts with `p`
(JavaScript `String.prototype.startsWith` on the underlying lists). -/
def listStarts : List Char → List Char → Bool
  | [], _ => true
  | _ :: _, [] => false
  | a :: as, b :: bs => a == b && listStarts as bs

/-- `listHasSeg n h`: `n` occurs as a contiguous segment of `h`
(JavaScript `String.prototype.includes`). -/
def listHasSeg (n : List Char) : List Char → Bool
  | [] => n.isEmpty
  | c :: t => listStarts n (c :: t) || listHasSeg n t

/-- JavaScript `s.startsWith(p)`. -/
def jsStartsWith (s p : String) : Bool := listStarts p.toList s.toList

/-- JavaScript `s.endsWith(p)`. -/
def jsEndsWith (s p : String) : Bool := listStarts p.toList.reverse s.toList.reverse

/-- JavaScript `s.includes(sub)`. -/
def jsIncludes (s sub : String) : Bool := listHasSeg sub.toList s.toList

/-- JavaScript `s.toLowerCase()` (ASCII case folding, as in the sources). -/
def jsToLower (s : String) : String := String.mk (s.toList.map Char.toLower)

/-- JavaScript string `length` (UTF-16 units; the embedded strings are ASCII). -/
def jsLen (s : String) : Nat := s.toList.length

/-- Replace the first occurrence of `pat` by `rep` — JavaScript
`s.replace(pat, rep)` with a plain-string pattern replaces only the first hit. -/
def replaceFirstChars (pat rep : List Char) : List Char → List Char
  | [] => []
  | c :: t =>
    if listStarts pat (c :: t) then rep ++ (c :: t).drop pat.length
    else c :: replaceFirstChars pat rep t

/-- JavaScript `s.replace(pat, rep)` for a plain-string `pat`. -/
def jsReplaceFirst (s pat rep : String) : String :=
  String.mk (replaceFirstChars pat.toList rep.toList s.toList)

/-- The character class `[^a-z0-9]` stripped away: JavaScript
`s.replace(/[^a-z0-9]/g, '')`. -/
def stripNonAlnum (s : String) : String :=
  String.mk (s.toList.filter fun c =>
    ('a' ≤ c && c ≤ 'z') || ('0' ≤ c && c ≤ '9'))

/-- JavaScript whitespace class `\s` restricted to the characters that can
occur in the inventory lines. -/
def isWsChar (c : Char) : Bool :=
  c == ' ' || c == '\t' || c == '\n' || c == '\r' || c == '\x0b' || c == '\x0c'

/-- JavaScript `s.trim()`. -/
def jsTrim (s : String) : String :=
  String.mk (((s.toList.dropWhile isWsChar).reverse.dropWhile isWsChar).reverse)

/-- Split a character list at every occurrence of a separator character
(JavaScript `s.split(sep)` for a one-character separator). -/
def splitOnChar (sep : Char) : List Char → List (List Char)
  | [] => [[]]
  | x :: t =>
    if x == sep then [] :: splitOnChar sep t
    else
      match splitOnChar sep t with
      | [] => [[x]]
      | h :: t2 => (x :: h) :: t2

/-- JavaScript `treeContent.split('\n')`. -/
def jsSplitLines (s : String) : List String := (splitOnChar '\n' s.toList).map String.mk

/-- JavaScript `path.split('/').pop()`: the last `/`-separated segment. -/
def lastSegment (s : String) : String :=
  String.mk ((s.toList.reverse.takeWhile fun c => !(c == '/')).reverse)

/-! ## JavaScript `Map` as an insertion-ordered association list -/

/-- A JavaScript `Map` from strings to strings: entries in insertion order. -/
abbrev JsMap := List (String × String)

/-- `m.has(k)`. -/
def mapHas (m : JsMap) (k : String) : Bool := m.any fun kv => kv.1 == k

/-- `m.get(k)` (`none` when absent). -/
def mapGet? (m : JsMap) (k : String) : Option String :=
  (m.find? fun kv => kv.1 == k).map (·.2)

/-- `m.set(k, v)`: overwrite in place when the key exists (keeping its
position), append otherwise. -/
def mapSet (m : JsMap) (k v : String) : JsMap :=
  if mapHas m k then m.map (fun kv => if kv.1 == k then (k, v) else kv)
  else m ++ [(k, v)]

/-- `Array.from(m.values())`, in insertion order. -/
def mapValues (m : JsMap) : List String := m.map (·.2)

/-! ## Data model -/

/-- A node position (`position: {x, y}`). -/
structure Position where
  x : Int
  y : Int
deriving DecidableEq, Repr

/-- A diagram node as produced by generation and consumed by the validator.
JavaScript string falsiness is modelled by `""` (an absent `icon` behaves
like the empty string in every guard of the sources). -/
structure Node where
  id : String
  label : String
  icon : String
  type : String
  position : Position
deriving DecidableEq, Repr

/-- A diagram edge (left untouched by the validator). -/
structure Edge where
  id : String
  source : String
  target : String
  label : String
  type : String
deriving DecidableEq, Repr

/-- The parsed diagram payload handed to the validator. -/
structure Diagram where
  nodes : List Node
  edges : List Edge
deriving DecidableEq, Repr

/-- One icon record of `icon-database.json` (only `exactPath` and
`filename` are read by the validator). -/
structure DbIcon where
  exactPath : String
  filename : String
deriving DecidableEq, Repr

/-- `icon-database.json`: `Object.entries` of normalized key to icon array,
in insertion order. -/
abbrev Database := List (String × List DbIcon)

/-- All icon records of the database in traversal order. -/
def dbIcons (db : Database) : List DbIcon := (db.map (·.2)).flatten

/-- The `exactPath` of every database record, in traversal order. -/
def dbPaths (db : Database) : List String := (dbIcons db).map (·.exactPath)

/-- An entry of the icon inventory index built by `extractProviderIcons`
(`{provider, category, filename, fullPath}`). -/
structure IconEntry where
  provider : String
  category : String
  filename : String
  fullPath : String
deriving DecidableEq, Repr

/-! ## `validateAndFixPaths` (the database-backed validator of `ai-instruct`) -/

/-- One step of the lookup-building loop of `validateAndFixPaths`: for a
database entry `(key, …)` and one of its icons, set
`pathLookup[exactPath.toLowerCase()] = exactPath`,
`searchLookup[key] = exactPath`, and additionally index the icon by its
normalized filename when that key is still free. -/
def addIcon (key : String) (acc : JsMap × JsMap) (icon : DbIcon) : JsMap × JsMap :=
  let pl := mapSet acc.1 (jsToLower icon.exactPath) icon.exactPath
  let sl := mapSet acc.2 key icon.exactPath
  let fn := stripNonAlnum (jsToLower (jsReplaceFirst icon.filename ".svg" ""))
  let sl := if mapHas sl fn then sl else mapSet sl fn icon.exactPath
  (pl, sl)

/-- The `pathLookup` / `searchLookup` maps of `validateAndFixPaths`, built in
one pass over `Object.entries(iconDatabase)`. -/
def buildLookups (db : Database) : JsMap × JsMap :=
  db.foldl (fun acc entry => entry.2.foldl (addIcon entry.1) acc) ([], [])

/-- The first projection of the joint lookup build is the plain
`pathLookup` fold. -/
def plStep (m : JsMap) (ic : DbIcon) : JsMap :=
  mapSet m (jsToLower ic.exactPath) ic.exactPath

/-- The `pathLookup` pair a database record contributes. -/
def lowPair (ic : DbIcon) : String × String := (jsToLower ic.exactPath, ic.exactPath)

/-- Strip the cloud-vendor tokens the generator likes to prepend:
`normalized.replace(/^amazon/,'').replace(/^aws/,'').replace(/^azure/,'')
.replace(/^google/,'').replace(/^gcp/,'')`, applied in this order. -/
def dropTok (s tok : String) : String :=
  if jsStartsWith s tok then String.mk (s.toList.drop tok.toList.length) else s

/-- The candidate name the validator searches for: last path segment,
`.svg` removed, lowercased, non-alphanumerics stripped, vendor tokens
stripped. -/
def normalizeCandidate (iconPath : String) : String :=
  let filename := lastSegment iconPath
  let n := stripNonAlnum (jsToLower (jsReplaceFirst filename ".svg" ""))
  dropTok (dropTok (dropTok (dropTok (dropTok n "amazon") "aws") "azure") "google") "gcp"

/-- The similarity score of the prefix / substring matching stage of
`validateAndFixPaths`, exactly as computed in its scan over
`searchLookup.entries()` (exact rational arithmetic, written with `mkRat`,
stands in for the floating-point products `(len1 / len2) * weight`, which
are exact at these magnitudes away from the comparison boundaries). -/
def fuzzyScore (normalized key : String) : ℚ :=
  if key = normalized then 200
  else if jsStartsWith key normalized && decide (2 ≤ jsLen normalized) then
    mkRat (jsLen normalized * 150) (jsLen key)
  else if jsStartsWith normalized key && decide (2 ≤ jsLen key) then
    mkRat (jsLen key * 150) (jsLen normalized)
  else if jsIncludes key normalized && decide (3 ≤ jsLen normalized) then
    mkRat (jsLen normalized * 100) (jsLen key)
  else if jsIncludes normalized key && decide (3 ≤ jsLen key) then
    mkRat (jsLen key * 100) (jsLen normalized)
  else 0

/-- The best-match scan: walk the entries in insertion order, keep the first
entry whose score beats both the current best and the threshold 30
(`if (score > bestScore && score > 30) …`). -/
def bestFuzzy (normalized : String) : List (String × String) → Option String × ℚ → Option String × ℚ
  | [], acc => acc
  | kv :: t, acc =>
    let score := fuzzyScore normalized kv.1
    bestFuzzy normalized t (if score > acc.2 && score > 30 then (some kv.2, score) else acc)

/-- The per-icon body of the `diagram.nodes.forEach` of `validateAndFixPaths`:
result is `(new icon, fixedCount delta, invalidCount delta)`. -/
def processIcon (pl sl : JsMap) (icon : String) : String × Nat × Nat :=
  match mapGet? pl (jsToLower icon) with
  | some correctPath => if correctPath ≠ icon then (correctPath, 1, 0) else (icon, 0, 0)
  | none =>
    let normalized := normalizeCandidate icon
    match mapGet? sl normalized with
    | some p => (p, 1, 1)
    | none =>
      match (bestFuzzy normalized sl (none, 0)).1 with
      | some p => (p, 1, 1)
      | none =>
        match (mapValues pl).find? (fun p => jsIncludes p "/General/") with
        | some g => (g, 1, 1)
        | none => (icon, 0, 1)

/-- The per-node step: nodes with a falsy `icon` are skipped
(`if (!node.icon) return`). -/
def processNode (pl sl : JsMap) (n : Node) : Node × Nat × Nat :=
  if n.icon = "" then (n, 0, 0)
  else
    let r := processIcon pl sl n.icon
    ({ n with icon := r.1 }, r.2.1, r.2.2)

/-- The validator's observable outcome: the diagram it returns plus the
`fixedCount` / `invalidCount` totals it reports in its summary log. -/
structure VResult where
  diagram : Diagram
  fixedCount : Nat
  invalidCount : Nat
deriving DecidableEq, Repr

/-- `validateAndFixPaths(diagram, providerIcons, projectRoot)` of
`ai-instruct`: the strict validator backed by `icon-database.json` (the
`providerIcons` argument is unused by this version; the database is the only
source of truth). Each node is processed independently; counters aggregate
over the diagram. -/
def validateAndFixPaths (db : Database) (d : Diagram) : VResult :=
  let maps := buildLookups db
  let rs := d.nodes.map (processNode maps.1 maps.2)
  { diagram := { nodes := rs.map (·.1), edges := d.edges }
    fixedCount := (rs.map fun r => r.2.1).sum
    invalidCount := (rs.map fun r => r.2.2).sum }

/-! ## The call as the JavaScript caller observes it

`validateAndFixPaths` assigns `node.icon = …` on the node objects of the
diagram it was handed and ends with `return diagram` — the same object.  A
heap of diagram objects indexed by address makes that observable: the call
rewrites the object at the given address in place and returns that very
address. -/

/-- A store of diagram objects, addressed by `Nat`. -/
structure Store where
  diagrams : Nat → Diagram

/-- Calling `validateAndFixPaths(diagram, …)` on the object at address `a`:
the node mutations update the stored object, and the returned reference is
`a` itself (`return diagram`). -/
def callValidate (db : Database) (s : Store) (a : Nat) : Store × Nat :=
  (⟨fun x => if x = a then (validateAndFixPaths db (s.diagrams a)).diagram
             else s.diagrams x⟩, a)

/-! ## `detectProviders` and the generate route's icon-pool providers -/

/-- The AWS trigger condition of `detectProviders`. -/
def awsTrig (lower : String) : Bool :=
  jsIncludes lower "aws" || jsIncludes lower "amazon web services"

/-- The Azure trigger condition of `detectProviders`. -/
def azureTrig (lower : String) : Bool :=
  jsIncludes lower "azure" || jsIncludes lower "microsoft azure"

/-- The GCP trigger condition of `detectProviders`. -/
def gcpTrig (lower : String) : Bool :=
  jsIncludes lower "gcp" || jsIncludes lower "google cloud"

/-- The Kubernetes trigger condition of `detectProviders`. -/
def k8sTrig (lower : String) : Bool :=
  jsIncludes lower "kubernetes" || jsIncludes lower "k8s"

/-- The Monitoring trigger condition of `detectProviders`. -/
def monTrig (lower : String) : Bool :=
  jsIncludes lower "prometheus" || jsIncludes lower "grafana" ||
  jsIncludes lower "datadog" || jsIncludes lower "cloudwatch" ||
  jsIncludes lower "monitoring"

/-- `detectProviders(markdown, explicitProviders)`: a non-empty explicit list
is returned verbatim; otherwise the lowercased text is scanned by the fixed
chain of trigger checks, appending in the order AWS, Azure, GCP, Kubernetes,
Monitoring, with `["General"]` as the empty default. -/
def detectProviders (markdown : String) (explicitProviders : List String) : List String :=
  if 0 < explicitProviders.length then explicitProviders
  else
    let lower := jsToLower markdown
    let l1 : List String := if awsTrig lower then ["AWS"] else []
    let l2 := l1 ++ (if azureTrig lower then ["Azure"] else [])
    let l3 := l2 ++ (if gcpTrig lower then ["GCP"] else [])
    let l4 := l3 ++ (if k8sTrig lower then ["Kubernetes"] else [])
    let l5 := l4 ++ (if monTrig lower then ["Monitoring"] else [])
    if l5.isEmpty then ["General"] else l5

/-- The fixed provider priority order of the detection chain. -/
def providerPriority : List String := ["AWS", "Azure", "GCP", "Kubernetes", "Monitoring"]

/-- Whether a provider of the priority list is triggered by the text — the
per-provider condition of the detection chain. -/
def providerTriggered (md p : String) : Bool :=
  let lower := jsToLower md
  if p = "AWS" then awsTrig lower
  else if p = "Azure" then azureTrig lower
  else if p = "GCP" then gcpTrig lower
  else if p = "Kubernetes" then k8sTrig lower
  else if p = "Monitoring" then monTrig lower
  else false

/-- The provider sequence whose icons the `/api/generate` route extracts:
the detected providers, with General appended as a fallback pool unless it
was already selected (`if (!detectedProviders.includes('General')) …`). -/
def requestIconProviders (markdown : String) (explicitProviders : List String) : List String :=
  let d := detectProviders markdown explicitProviders
  if d.contains "General" then d else d ++ ["General"]

/-! ## `findCorrectIconPath` and `correctIconPaths` -/

/-- `normalizeString` of `findCorrectIconPath`: lowercase, then strip every
non-alphanumeric character. -/
def normalizeString (s : String) : String := stripNonAlnum (jsToLower s)

/-- The similarity score of the partial-match loop of `findCorrectIconPath`:
only keys in mutual substring relation score, with bonuses for equal length
and for a shared start. -/
def fcpScore (normalizedAI normalizedKey : String) : ℚ :=
  if jsIncludes normalizedKey normalizedAI || jsIncludes normalizedAI normalizedKey then
    let longer : ℚ := max (jsLen normalizedKey) (jsLen normalizedAI)
    let shorter : ℚ := min (jsLen normalizedKey) (jsLen normalizedAI)
    let s := shorter / longer * 100
    let s := if jsLen normalizedKey = jsLen normalizedAI then s + 20 else s
    if jsStartsWith normalizedKey normalizedAI || jsStartsWith normalizedAI normalizedKey
    then s + 15 else s
  else 0

/-- The best-match loop of `findCorrectIconPath`: strictly improving scores
win, first entry keeps ties. -/
def fcpBest (normalizedAI : String) : List (String × String) → Option String × ℚ → Option String × ℚ
  | [], acc => acc
  | kv :: t, acc =>
    let score := fcpScore normalizedAI (normalizeString (jsReplaceFirst kv.1 ".svg" ""))
    fcpBest normalizedAI t (if score > acc.2 then (some kv.2, score) else acc)

/-- `findCorrectIconPath(aiPath, iconMap)`: staged fuzzy repair of one icon
path against the filename-keyed map; falls back to the original path when
nothing scores above 50. -/
def findCorrectIconPath (aiPath : String) (iconMap : JsMap) : String :=
  let aiFilename := lastSegment aiPath
  match mapGet? iconMap (jsToLower aiFilename) with
  | some p => p
  | none =>
    let filenameWithoutExt := jsToLower (jsReplaceFirst aiFilename ".svg" "")
    match mapGet? iconMap filenameWithoutExt with
    | some p => p
    | none =>
      let normalizedAI := normalizeString filenameWithoutExt
      match iconMap.find?
          (fun kv => normalizeString (jsReplaceFirst kv.1 ".svg" "") == normalizedAI) with
      | some kv => kv.2
      | none =>
        let best := fcpBest normalizedAI iconMap (none, 0)
        match best.1 with
        | some p => if best.2 > 50 then p else aiPath
        | none => aiPath

/-- The `fullPath` an icon entry contributes
(`icon.fullPath || 'assets/icons/…'` — the template when `fullPath` is falsy). -/
def entryFullPath (ic : IconEntry) : String :=
  if ic.fullPath ≠ "" then ic.fullPath
  else "assets/icons/" ++ ic.provider ++ "/" ++ ic.category ++ "/" ++ ic.filename

/-- The filename-keyed lookup map `correctIconPaths` builds: every entry is
stored under its lowercased filename, and under the extension-free lowercased
filename when that key is still free. -/
def buildIconMap (providerIcons : List IconEntry) : JsMap :=
  providerIcons.foldl
    (fun m ic =>
      let fullPath := entryFullPath ic
      let m := mapSet m (jsToLower ic.filename) fullPath
      let nameWithoutExt := jsToLower (jsReplaceFirst ic.filename ".svg" "")
      if mapHas m nameWithoutExt then m else mapSet m nameWithoutExt fullPath)
    []

/-- `correctIconPaths(diagram, providerIcons, providers)`: rewrite each
node's truthy icon to `findCorrectIconPath`'s answer when that answer is
truthy. -/
def correctIconPaths (providerIcons : List IconEntry) (d : Diagram) : Diagram :=
  let iconMap := buildIconMap providerIcons
  { d with
    nodes := d.nodes.map fun n =>
      if n.icon ≠ "" then
        let c := findCorrectIconPath n.icon iconMap
        if c ≠ "" then { n with icon := c } else n
      else n }

/-! ## Generation result parsing (`/api/generate`)

The route runs `generatedText.match(/\x7b[\s\S]*\x7d/)` — the greedy pattern
spans from the first opening brace to the last closing brace of the whole
text when that closing brace comes later; otherwise the text is left as it
is — and then `JSON.parse` on the outcome, whose failure the route's catch
turns into an error response.  `JSON.parse` is a platform builtin; it is
modelled by a recursive-descent parser over the JSON grammar restricted to
what the diagram payloads use: objects, arrays, unescaped string literals,
integer numerals, `true`, `false`, `null`, and the four whitespace
characters. -/

/-- Index of the first occurrence of a character. -/
def idxOfFirst (c : Char) : List Char → Option Nat
  | [] => none
  | x :: t => if x == c then some 0 else (idxOfFirst c t).map (· + 1)

/-- Index of the last occurrence of a character. -/
def idxOfLast (c : Char) (cs : List Char) : Option Nat :=
  (idxOfFirst c cs.reverse).map fun k => cs.length - 1 - k

/-- The brace-span extraction of the route: the substring from the first
opening to the last closing brace when the match exists, the raw text
otherwise. -/
def extractJson (s : String) : String :=
  let cs := s.toList
  match idxOfFirst '\x7b' cs, idxOfLast '\x7d' cs with
  | some i, some j => if i < j then String.mk ((cs.drop i).take (j - i + 1)) else s
  | _, _ => s

/-- JSON values (numbers restricted to the integers the payloads use). -/
inductive Json where
  | jnull : Json
  | jbool : Bool → Json
  | jnum : Int → Json
  | jstr : String → Json
  | jarr : List Json → Json
  | jobj : List (String × Json) → Json
deriving Repr

/-- JSON whitespace skipped between tokens. -/
def skipWs (cs : List Char) : List Char :=
  cs.dropWhile fun c => c == ' ' || c == '\t' || c == '\n' || c == '\r'

/-- Scan a string literal body up to the closing quote (no escapes: the
payloads carry plain identifiers and paths). -/
def scanStrLit : List Char → Option (String × List Char)
  | [] => none
  | c :: t =>
    if c == '"' then some ("", t)
    else if c == '\\' then none
    else (scanStrLit t).map fun r => (String.mk (c :: r.1.toList), r.2)

/-- Scan a decimal numeral. -/
def scanDigits : List Char → Option (Nat × List Char)
  | cs =>
    let ds := cs.takeWhile fun c => '0' ≤ c && c ≤ '9'
    if ds.isEmpty then none
    else some (ds.foldl (fun n c => n * 10 + (c.toNat - '0'.toNat)) 0, cs.drop ds.length)

mutual

/-- Parse one JSON value (fuel-bounded recursive descent). -/
def parseVal : Nat → List Char → Option (Json × List Char)
  | 0, _ => none
  | fuel + 1, cs =>
    match skipWs cs with
    | [] => none
    | c :: t =>
      if c == 'n' then
        if listStarts ['u', 'l', 'l'] t then some (.jnull, t.drop 3) else none
      else if c == 't' then
        if listStarts ['r', 'u', 'e'] t then some (.jbool true, t.drop 3) else none
      else if c == 'f' then
        if listStarts ['a', 'l', 's', 'e'] t then some (.jbool false, t.drop 4) else none
      else if c == '"' then
        (scanStrLit t).map fun r => (.jstr r.1, r.2)
      else if c == '-' then
        (scanDigits t).map fun r => (.jnum (-(r.1 : Int)), r.2)
      else if '0' ≤ c && c ≤ '9' then
        (scanDigits (c :: t)).map fun r => (.jnum (r.1 : Int), r.2)
      else if c == '[' then
        match skipWs t with
        | ']' :: t2 => some (.jarr [], t2)
        | t2 => (parseArrItems fuel t2).map fun r => (.jarr r.1, r.2)
      else if c == '\x7b' then
        match skipWs t with
        | '\x7d' :: t2 => some (.jobj [], t2)
        | t2 => (parseObjItems fuel t2).map fun r => (.jobj r.1, r.2)
      else none

/-- Parse the remaining elements of a non-empty array. -/
def parseArrItems : Nat → List Char → Option (List Json × List Char)
  | 0, _ => none
  | fuel + 1, cs =>
    match parseVal fuel cs with
    | none => none
    | some (v, rest) =>
      match skipWs rest with
      | ',' :: t => (parseArrItems fuel t).map fun r => (v :: r.1, r.2)
      | ']' :: t => some ([v], t)
      | _ => none

/-- Parse the remaining members of a non-empty object. -/
def parseObjItems : Nat → List Char → Option (List (String × Json) × List Char)
  | 0, _ => none
  | fuel + 1, cs =>
    match skipWs cs with
    | '"' :: t =>
      match scanStrLit t with
      | none => none
      | some (k, rest) =>
        match skipWs rest with
        | ':' :: t2 =>
          match parseVal fuel t2 with
          | none => none
          | some (v, rest2) =>
            match skipWs rest2 with
            | ',' :: t3 => (parseObjItems fuel t3).map fun r => ((k, v) :: r.1, r.2)
            | '\x7d' :: t3 => some ([(k, v)], t3)
            | _ => none
        | _ => none
    | _ => none

end

/-- `JSON.parse(text)` (on the grammar subset above): the whole input must
be one value, up to trailing whitespace. -/
def jsonParse (s : String) : Option Json :=
  match parseVal (s.toList.length + 1) s.toList with
  | some (v, rest) => if (skipWs rest).isEmpty then some v else none
  | none => none

/-- The route's parsing of the generation service's raw text: brace-span
extraction followed by `JSON.parse`; `none` is the thrown parse error the
route's catch converts into an error response. -/
def parseGeneratedResponse (raw : String) : Option Json := jsonParse (extractJson raw)

/-! ## `extractProviderIcons` (the tree.txt inventory parser)

The four line patterns of the loop are concrete regular expressions over the
tree-drawing glyphs; each is embedded as a matcher over the line's
characters.  An unanchored search tries every start position from the left;
`\s+` never needs backtracking here because every character that follows it
in a pattern is outside the whitespace class. -/

/-- Consume one-or-more whitespace characters (`\s+`). -/
def dropWsPlus : List Char → Option (List Char)
  | [] => none
  | c :: t => if isWsChar c then some (t.dropWhile isWsChar) else none

/-- Consume an exact literal. -/
def eatLit (pat cs : List Char) : Option (List Char) :=
  if listStarts pat cs then some (cs.drop pat.length) else none

/-- `│` then `\s+` then `├` or `└` then `── `: the shared spine of the
header patterns, at a fixed start position. -/
def spineAt (cs : List Char) : Option (List Char) :=
  match cs with
  | '│' :: r1 =>
    match dropWsPlus r1 with
    | some (b :: r2) =>
      if b == '├' || b == '└' then eatLit ['─', '─', ' '] r2 else none
    | _ => none
  | _ => none

/-- `│\s+[├└]── <name>\s*$` at a fixed start position. -/
def provHeaderAt (name : List Char) (cs : List Char) : Bool :=
  match spineAt cs with
  | some r => listStarts name r && (r.drop name.length).all isWsChar
  | none => false

/-- Try a matcher at every start position, left to right (unanchored regex
search); the first success wins. -/
def scanFirst (f : List Char → Option α) : List Char → Option α
  | [] => f []
  | c :: rest =>
    match f (c :: rest) with
    | some x => some x
    | none => scanFirst f rest

/-- Unanchored boolean search. -/
def scanAny (f : List Char → Bool) : List Char → Bool
  | [] => f []
  | c :: rest => f (c :: rest) || scanAny f rest

/-- The provider-section start test:
`line.match(new RegExp('│\\s+[├└]── ' + provider + '\\s*$'))`. -/
def isProvHeader (provider line : String) : Bool :=
  scanAny (provHeaderAt provider.toList) line.toList

/-- The provider names of the generic section-header alternation. -/
def provNames : List String := ["AWS", "Azure", "GCP", "Kubernetes", "General", "Monitoring"]

/-- The generic header capture:
`/│\s+[├└]── (AWS|Azure|GCP|Kubernetes|General|Monitoring)\s*$/`. -/
def genHeaderCapture (line : String) : Option String :=
  scanFirst (fun cs => provNames.find? fun p => provHeaderAt p.toList cs) line.toList

/-- The greedy `(.+\.svg)\s*$` tail: the capture runs to the last character
before the trailing whitespace, must be `.`-matchable, at least five
characters, and end in `.svg`. -/
def svgCapture (r : List Char) : Option String :=
  let cap := (r.reverse.dropWhile isWsChar).reverse
  if 5 ≤ cap.length && listStarts ['.', 's', 'v', 'g'].reverse cap.reverse
      && cap.all (fun c => !(c == '\n' || c == '\r'))
  then some (String.mk cap) else none

/-- `/│\s+│\s+│\s+[├└]── (.+\.svg)\s*$/` — the category-nested icon line. -/
def deepIconCapture (line : String) : Option String :=
  scanFirst
    (fun cs =>
      match cs with
      | '│' :: r1 =>
        match dropWsPlus r1 with
        | some ('│' :: r2) =>
          match dropWsPlus r2 with
          | some r3 =>
            match spineAt r3 with
            | some r4 => svgCapture r4
            | none => none
          | none => none
        | _ => none
      | _ => none)
    line.toList

/-- `/^│\s+│\s+[├└]── (.+\.svg)\s*$/` — the flat icon line, anchored at the
line start. -/
def flatIconCapture (line : String) : Option String :=
  match line.toList with
  | '│' :: r1 =>
    match dropWsPlus r1 with
    | some r2 =>
      match spineAt r2 with
      | some r3 => svgCapture r3
      | none => none
    | none => none
  | _ => none

/-- `/│\s+│\s+[├└]── ([^│\n]+)$/` — the category line: the capture is the
rest of the line, which must be non-empty and free of `│` and newline. -/
def catCapture (line : String) : Option String :=
  scanFirst
    (fun cs =>
      match cs with
      | '│' :: r1 =>
        match dropWsPlus r1 with
        | some r2 =>
          match spineAt r2 with
          | some r3 =>
            if !r3.isEmpty && r3.all (fun c => !(c == '│' || c == '\n'))
            then some (String.mk r3) else none
          | none => none
        | none => none
      | _ => none)
    line.toList

/-- The line loop of `extractProviderIcons`, with the section state
(`inProviderSection`, `currentCategory`); hitting a different provider's
header inside the section is the loop's `break`. -/
def extractLoopGo (provider : String) : List String → Bool → String → List IconEntry
  | [], _, _ => []
  | line :: rest, inSec, cat =>
    if isProvHeader provider line then extractLoopGo provider rest true cat
    else if inSec &&
        (match genHeaderCapture line with
         | some name => name ≠ provider
         | none => false) then []
    else if inSec then
      if (deepIconCapture line).isSome && cat ≠ "" then
        match deepIconCapture line with
        | some raw =>
          let f := jsTrim raw
          ⟨provider, cat, f, "assets/icons/" ++ provider ++ "/" ++ cat ++ "/" ++ f⟩ ::
            extractLoopGo provider rest inSec cat
        | none => extractLoopGo provider rest inSec cat
      else
        match flatIconCapture line with
        | some raw =>
          let f := jsTrim raw
          let categoryName := if cat ≠ "" then cat else "General-Icons"
          ⟨provider, categoryName, f, "assets/icons/" ++ provider ++ "/" ++ f⟩ ::
            extractLoopGo provider rest inSec cat
        | none =>
          match catCapture line with
          | some c =>
            if !jsIncludes c ".svg" then extractLoopGo provider rest inSec (jsTrim c)
            else extractLoopGo provider rest inSec cat
          | none => extractLoopGo provider rest inSec cat
    else extractLoopGo provider rest inSec cat

/-- The General-entry an on-disk file contributes in the filesystem
fallback. -/
def generalDiskEntry (filename : String) : IconEntry :=
  ⟨"General", "General-Icons", filename, "assets/icons/General/" ++ filename⟩

/-- `extractProviderIcons(treeContent, provider, projectRoot)`: parse the
textual tree, then — for the General provider with a truthy project root —
append the `.svg` files of the on-disk General directory that the tree did
not already list.  `fsGeneral` is the `readdirSync` result; `none` is the
thrown read error the function catches and ignores. -/
def extractProviderIcons (treeContent provider projectRoot : String)
    (fsGeneral : Option (List String)) : List IconEntry :=
  let icons := extractLoopGo provider (jsSplitLines treeContent) false ""
  if provider = "General" ∧ projectRoot ≠ "" then
    match fsGeneral with
    | none => icons
    | some files =>
      let svgFiles := files.filter fun f => jsEndsWith f ".svg"
      let existing := icons.map (·.filename)
      icons ++ (svgFiles.filter fun f => !existing.contains f).map generalDiskEntry
  else icons

/-! ## The scoring stage as the specification words it

`claimedScore` transcribes the specification's description of the similarity
score (exact equality, prefix weighted by length ratio × 150, substring
weighted by length ratio × 100) with no further conditions; `amendedScore`
is the same description amended with the length guards the code applies
(the shorter operand must have at least 2 characters for the prefix stage
and at least 3 for the substring stage). -/

/-- The specification's scoring formula, stated over the two normalized
names with the shorter/longer length ratio. -/
def claimedScore (cand key : String) : ℚ :=
  if key = cand then 200
  else if jsStartsWith key cand || jsStartsWith cand key then
    (min (jsLen cand) (jsLen key) : ℚ) / (max (jsLen cand) (jsLen key)) * 150
  else if jsIncludes key cand || jsIncludes cand key then
    (min (jsLen cand) (jsLen key) : ℚ) / (max (jsLen cand) (jsLen key)) * 100
  else 0

/-- The scoring formula amended with the code's length guards. -/
def amendedScore (cand key : String) : ℚ :=
  if key = cand then 200
  else if (jsStartsWith key cand || jsStartsWith cand key)
      && decide (2 ≤ min (jsLen cand) (jsLen key)) then
    (min (jsLen cand) (jsLen key) : ℚ) / (max (jsLen cand) (jsLen key)) * 150
  else if (jsIncludes key cand || jsIncludes cand key)
      && decide (3 ≤ min (jsLen cand) (jsLen key)) then
    (min (jsLen cand) (jsLen key) : ℚ) / (max (jsLen cand) (jsLen key)) * 100
  else 0

/-! ## Concrete fixtures for the witnesses and counterexamples -/

/-- The provider segment of a canonical path
(`assets/icons/<provider>/…`), per the data model. -/
def pathProvider (p : String) : String :=
  ((splitOnChar '/' p.toList).map String.mk).getD 2 ""

/-- A two-icon database: one AWS icon plus one General icon. -/
def dbLambda : Database :=
  [("lambda", [⟨"assets/icons/AWS/Compute/Lambda.svg", "Lambda.svg"⟩]),
   ("app", [⟨"assets/icons/General/App.svg", "App.svg"⟩])]

/-- A node referencing the Lambda icon in the wrong casing. -/
def nodeLambdaLower : Node :=
  ⟨"n1", "Lambda", "assets/icons/aws/compute/lambda.svg", "service", ⟨100, 100⟩⟩

/-- A one-node diagram with the wrongly-cased Lambda icon. -/
def dLambda : Diagram := ⟨[nodeLambdaLower], []⟩

/-- A store holding `dLambda` at every address. -/
def storeLambda : Store := ⟨fun _ => dLambda⟩

/-- A one-node diagram whose icon matches nothing. -/
def dFoo : Diagram := ⟨[⟨"n1", "X", "foo.svg", "service", ⟨0, 0⟩⟩], []⟩

/-- A database whose only icon is an AWS icon in a category named
`General` — its General provider pool is empty. -/
def dbCatGeneral : Database := [("xsvc", [⟨"assets/icons/AWS/General/X.svg", "X.svg"⟩])]

/-- A one-node diagram whose icon `zzzz` matches no stage. -/
def dZ : Diagram := ⟨[⟨"n1", "Z", "zzzz", "service", ⟨0, 0⟩⟩], []⟩

/-- A database with one icon under normalized key `ab` (no General pool). -/
def dbAB : Database := [("ab", [⟨"assets/icons/AWS/Cat/Ab.svg", "Ab.svg"⟩])]

/-- A one-node diagram with candidate icon `a.svg` (normalized name of
length 1). -/
def dA : Diagram := ⟨[⟨"n1", "A", "a.svg", "service", ⟨0, 0⟩⟩], []⟩

/-- The specification's fuzzy-prefix example database: normalized key
`s3bucket`. -/
def dbS3 : Database :=
  [("s3bucket", [⟨"assets/icons/AWS/Storage/S3-bucket.svg", "S3-bucket.svg"⟩])]

/-- A one-node diagram asking for `S3.svg`. -/
def dS3 : Diagram := ⟨[⟨"n1", "S3", "S3.svg", "service", ⟨0, 0⟩⟩], []⟩

/-- A one-entry provider-icon list (with a falsy `fullPath`, so the
template path is used). -/
def iconsAzure : List IconEntry := [⟨"Azure", "Network", "Azure-Front-Door.svg", ""⟩]

/-! ## Helper lemmas: strings and segments -/

theorem listStarts_iff {p l : List Char} : listStarts p l = true ↔ ∃ t, l = p ++ t := by
  induction p generalizing l with
  | nil => simp [listStarts]
  | cons a as ih =>
    cases l with
    | nil => simp [listStarts]
    | cons b bs =>
      simp only [listStarts, Bool.and_eq_true, beq_iff_eq, ih]
      constructor
      · rintro ⟨rfl, t, rfl⟩
        exact ⟨t, rfl⟩
      · rintro ⟨t, h⟩
        cases h
        exact ⟨rfl, t, rfl⟩

theorem listHasSeg_iff {n h : List Char} : listHasSeg n h = true ↔ ∃ u v, h = u ++ n ++ v := by
  induction h with
  | nil =>
    simp only [listHasSeg, List.isEmpty_iff]
    constructor
    · rintro rfl
      exact ⟨[], [], rfl⟩
    · rintro ⟨u, v, huv⟩
      rcases List.append_eq_nil.mp (List.append_eq_nil.mp huv.symm).1 with ⟨-, h2⟩
      exact h2
  | cons c t ih =>
    simp only [listHasSeg, Bool.or_eq_true, listStarts_iff, ih]
    constructor
    · rintro (⟨s, hs⟩ | ⟨u, v, rfl⟩)
      · exact ⟨[], s, by simp [hs]⟩
      · exact ⟨c :: u, v, rfl⟩
    · rintro ⟨u, v, huv⟩
      cases u with
      | nil => exact Or.inl ⟨v, by simpa using huv⟩
      | cons x xs =>
        rcases List.cons_eq_cons.mp huv with ⟨-, h2⟩
        exact Or.inr ⟨xs, v, h2⟩

theorem listStarts_length_le {p l : List Char} (h : listStarts p l = true) :
    p.length ≤ l.length := by
  rcases listStarts_iff.mp h with ⟨t, rfl⟩
  simp

theorem listHasSeg_length_le {n h : List Char} (hs : listHasSeg n h = true) :
    n.length ≤ h.length := by
  rcases listHasSeg_iff.mp hs with ⟨u, v, rfl⟩
  simp
  omega

theorem listStarts_of_listStarts_eq_length {p l : List Char} (h : listStarts p l = true)
    (hl : p.length = l.length) : p = l := by
  rcases listStarts_iff.mp h with ⟨t, rfl⟩
  have : t = [] := by
    have := List.length_append p t
    rw [← hl] at this
    exact List.length_eq_zero.mp (by omega)
  simp [this]

theorem listHasSeg_of_eq_length {n h : List Char} (hs : listHasSeg n h = true)
    (hl : n.length = h.length) : n = h := by
  rcases listHasSeg_iff.mp hs with ⟨u, v, rfl⟩
  have hu : u = [] := by
    have := List.length_append (u ++ n) v
    have := List.length_append u n
    refine List.length_eq_zero.mp ?_
    omega
  have hv : v = [] := by
    have := List.length_append (u ++ n) v
    have := List.length_append u n
    refine List.length_eq_zero.mp ?_
    omega
  simp [hu, hv]

theorem listStarts_listHasSeg {n l : List Char} (h : listStarts n l = true) :
    listHasSeg n l = true := by
  rcases listStarts_iff.mp h with ⟨t, rfl⟩
  exact listHasSeg_iff.mpr ⟨[], t, by simp⟩

theorem string_toList_inj {s t : String} (h : s.toList = t.toList) : s = t := by
  cases s
  cases t
  simp only [String.toList] at h
  exact congrArg String.mk h

theorem jsStartsWith_le {s p : String} (h : jsStartsWith s p = true) : jsLen p ≤ jsLen s :=
  listStarts_length_le h

theorem jsIncludes_le {s sub : String} (h : jsIncludes s sub = true) : jsLen sub ≤ jsLen s :=
  listHasSeg_length_le h

theorem jsStartsWith_eq_of_le {s p : String} (h : jsStartsWith s p = true)
    (hl : jsLen s ≤ jsLen p) : p = s :=
  string_toList_inj (listStarts_of_listStarts_eq_length h (le_antisymm (jsStartsWith_le h) hl))

theorem jsIncludes_eq_of_le {s sub : String} (h : jsIncludes s sub = true)
    (hl : jsLen s ≤ jsLen sub) : sub = s :=
  string_toList_inj (listHasSeg_of_eq_length h (le_antisymm (jsIncludes_le h) hl))

theorem jsStartsWith_jsIncludes {s p : String} (h : jsStartsWith s p = true) :
    jsIncludes s p = true :=
  listStarts_listHasSeg h

/-- Boolean negation transport for the case splits below. -/
theorem bool_eq_false_of_not {b : Bool} (h : ¬ b = true) : b = false := by
  cases b
  · rfl
  · exact absurd rfl h

/-- `mkRat` form of the length-ratio score, weight 150. -/
theorem mkRat_ratio150 (a b : Nat) :
    mkRat ((a : Int) * 150) b = (a : ℚ) / (b : ℚ) * 150 := by
  rw [Rat.mkRat_eq_div]
  push_cast
  rw [div_mul_eq_mul_div]

/-- `mkRat` form of the length-ratio score, weight 100. -/
theorem mkRat_ratio100 (a b : Nat) :
    mkRat ((a : Int) * 100) b = (a : ℚ) / (b : ℚ) * 100 := by
  rw [Rat.mkRat_eq_div]
  push_cast
  rw [div_mul_eq_mul_div]

/-- The code's staged score agrees everywhere with the specification formula
amended by the length guards. -/
theorem fuzzyScore_eq_amendedScore (n k : String) : fuzzyScore n k = amendedScore n k := by
  by_cases hkn : k = n
  · simp [fuzzyScore, amendedScore, mkRat_ratio150, mkRat_ratio100, hkn]
  · by_cases hb1 : jsStartsWith k n = true
    · have hle : jsLen n ≤ jsLen k := jsStartsWith_le hb1
      have hmin : min (jsLen n) (jsLen k) = jsLen n := Nat.min_eq_left hle
      have hmax : max (jsLen n) (jsLen k) = jsLen k := Nat.max_eq_right hle
      have hminq : min ((jsLen n : ℚ)) ((jsLen k : ℚ)) = (jsLen n : ℚ) :=
        min_eq_left (by exact_mod_cast hle)
      have hmaxq : max ((jsLen n : ℚ)) ((jsLen k : ℚ)) = (jsLen k : ℚ) :=
        max_eq_right (by exact_mod_cast hle)
      have hb2 : jsStartsWith n k = false := by
        refine bool_eq_false_of_not fun hcon => ?_
        exact hkn (jsStartsWith_eq_of_le hb1 (jsStartsWith_le hcon)).symm
      by_cases hg1 : 2 ≤ jsLen n
      · simp [fuzzyScore, amendedScore, mkRat_ratio150, mkRat_ratio100, hkn, hb1, hb2, hg1, hmin, hmax, hminq, hmaxq]
      · have hg3 : ¬ 3 ≤ jsLen n := by omega
        have hc2 : jsIncludes n k = false := by
          refine bool_eq_false_of_not fun hcon => ?_
          exact hkn (jsIncludes_eq_of_le hcon hle)
        simp [fuzzyScore, amendedScore, mkRat_ratio150, mkRat_ratio100, hkn, hb1, hb2, hc2, hg1, hg3, hmin, hmax,
          hminq, hmaxq, jsStartsWith_jsIncludes hb1]
    · by_cases hb2 : jsStartsWith n k = true
      · have hle : jsLen k ≤ jsLen n := jsStartsWith_le hb2
        have hmin : min (jsLen n) (jsLen k) = jsLen k := Nat.min_eq_right hle
        have hmax : max (jsLen n) (jsLen k) = jsLen n := Nat.max_eq_left hle
        have hminq : min ((jsLen n : ℚ)) ((jsLen k : ℚ)) = (jsLen k : ℚ) :=
          min_eq_right (by exact_mod_cast hle)
        have hmaxq : max ((jsLen n : ℚ)) ((jsLen k : ℚ)) = (jsLen n : ℚ) :=
          max_eq_left (by exact_mod_cast hle)
        by_cases hg2 : 2 ≤ jsLen k
        · simp [fuzzyScore, amendedScore, mkRat_ratio150, mkRat_ratio100, hkn, hb1, hb2, hg2, hmin, hmax, hminq, hmaxq,
            bool_eq_false_of_not hb1]
        · have hg3 : ¬ 3 ≤ jsLen k := by omega
          have hc1 : jsIncludes k n = false := by
            refine bool_eq_false_of_not fun hcon => ?_
            exact hkn (jsIncludes_eq_of_le hcon hle).symm
          simp [fuzzyScore, amendedScore, mkRat_ratio150, mkRat_ratio100, hkn, hb2, hc1, hg2, hg3, hmin, hmax, hminq, hmaxq,
            bool_eq_false_of_not hb1, jsStartsWith_jsIncludes hb2]
      · have hb1' := bool_eq_false_of_not hb1
        have hb2' := bool_eq_false_of_not hb2
        by_cases hc1 : jsIncludes k n = true
        · have hle : jsLen n ≤ jsLen k := jsIncludes_le hc1
          have hmin : min (jsLen n) (jsLen k) = jsLen n := Nat.min_eq_left hle
          have hmax : max (jsLen n) (jsLen k) = jsLen k := Nat.max_eq_right hle
          have hminq : min ((jsLen n : ℚ)) ((jsLen k : ℚ)) = (jsLen n : ℚ) :=
            min_eq_left (by exact_mod_cast hle)
          have hmaxq : max ((jsLen n : ℚ)) ((jsLen k : ℚ)) = (jsLen k : ℚ) :=
            max_eq_right (by exact_mod_cast hle)
          by_cases hg1 : 3 ≤ jsLen n
          · simp [fuzzyScore, amendedScore, mkRat_ratio150, mkRat_ratio100, hkn, hb1', hb2', hc1, hg1, hmin, hmax,
              hminq, hmaxq]
          · have hc2 : jsIncludes n k = false := by
              refine bool_eq_false_of_not fun hcon => ?_
              exact hkn (jsIncludes_eq_of_le hcon hle)
            simp [fuzzyScore, amendedScore, mkRat_ratio150, mkRat_ratio100, hkn, hb1', hb2', hc1, hc2, hg1, hmin, hmax,
              hminq, hmaxq]
        · have hc1' := bool_eq_false_of_not hc1
          by_cases hc2 : jsIncludes n k = true
          · have hle : jsLen k ≤ jsLen n := jsIncludes_le hc2
            have hmin : min (jsLen n) (jsLen k) = jsLen k := Nat.min_eq_right hle
            have hmax : max (jsLen n) (jsLen k) = jsLen n := Nat.max_eq_left hle
            have hminq : min ((jsLen n : ℚ)) ((jsLen k : ℚ)) = (jsLen k : ℚ) :=
              min_eq_right (by exact_mod_cast hle)
            have hmaxq : max ((jsLen n : ℚ)) ((jsLen k : ℚ)) = (jsLen n : ℚ) :=
              max_eq_left (by exact_mod_cast hle)
            by_cases hg2 : 3 ≤ jsLen k
            · simp [fuzzyScore, amendedScore, mkRat_ratio150, mkRat_ratio100, hkn, hb1', hb2', hc1', hc2, hg2, hmin, hmax,
                hminq, hmaxq]
            · simp [fuzzyScore, amendedScore, mkRat_ratio150, mkRat_ratio100, hkn, hb1', hb2', hc1', hc2, hg2, hmin, hmax,
                hminq, hmaxq]
          · simp [fuzzyScore, amendedScore, mkRat_ratio150, mkRat_ratio100, hkn, hb1', hb2', hc1',
              bool_eq_false_of_not hc2]

/-- Full characterization of the best-match scan from an arbitrary running
best: either nothing beat the accumulator, or the result is the first entry
attaining the final (strictly improving, above-threshold) score. -/
theorem bestFuzzy_inv (n : String) (l : List (String × String)) :
    ∀ (b : Option String) (sb : ℚ),
    (bestFuzzy n l (b, sb) = (b, sb) ∧
      ∀ kv ∈ l, fuzzyScore n kv.1 ≤ sb ∨ fuzzyScore n kv.1 ≤ 30) ∨
    (∃ l1 kv l2, l = l1 ++ kv :: l2 ∧
      bestFuzzy n l (b, sb) = (some kv.2, fuzzyScore n kv.1) ∧
      30 < fuzzyScore n kv.1 ∧ sb < fuzzyScore n kv.1 ∧
      (∀ kv2 ∈ l1, fuzzyScore n kv2.1 < fuzzyScore n kv.1) ∧
      (∀ kv2 ∈ l2, fuzzyScore n kv2.1 ≤ fuzzyScore n kv.1)) := by
  induction l with
  | nil =>
    intro b sb
    left
    exact ⟨rfl, by simp⟩
  | cons kv t ih =>
    intro b sb
    by_cases hcond : sb < fuzzyScore n kv.1 ∧ 30 < fuzzyScore n kv.1
    · have hstep : bestFuzzy n (kv :: t) (b, sb) =
          bestFuzzy n t (some kv.2, fuzzyScore n kv.1) := by
        simp [bestFuzzy, hcond.1, hcond.2]
      rcases ih (some kv.2) (fuzzyScore n kv.1) with
        ⟨heq, hall⟩ | ⟨l1, kv2, l2, hsplit, hres, h30, hgt, hbef, haft⟩
      · right
        refine ⟨[], kv, t, by simp, ?_, hcond.2, hcond.1, by simp, ?_⟩
        · rw [hstep]; exact heq
        · intro kv2 hm
          rcases hall kv2 hm with h | h
          · exact h
          · exact le_trans h (le_of_lt hcond.2)
      · right
        refine ⟨kv :: l1, kv2, l2, by simp [hsplit], ?_, h30,
          lt_trans hcond.1 hgt, ?_, haft⟩
        · rw [hstep]; exact hres
        · intro kv3 hm
          rcases List.mem_cons.mp hm with rfl | hm2
          · exact hgt
          · exact hbef kv3 hm2
    · have hfalse : (decide (fuzzyScore n kv.1 > sb) &&
          decide (fuzzyScore n kv.1 > 30)) = false := by
        rcases not_and_or.mp hcond with h | h <;> simp [h]
      have hstep : bestFuzzy n (kv :: t) (b, sb) = bestFuzzy n t (b, sb) := by
        simp [bestFuzzy, hfalse]
      have hd : fuzzyScore n kv.1 ≤ sb ∨ fuzzyScore n kv.1 ≤ 30 := by
        rcases not_and_or.mp hcond with h | h
        · exact Or.inl (not_lt.mp h)
        · exact Or.inr (not_lt.mp h)
      rcases ih b sb with ⟨heq, hall⟩ | ⟨l1, kv2, l2, hsplit, hres, h30, hsb, hbef, haft⟩
      · left
        refine ⟨by rw [hstep]; exact heq, ?_⟩
        intro kv3 hm
        rcases List.mem_cons.mp hm with rfl | hm2
        · exact hd
        · exact hall kv3 hm2
      · right
        refine ⟨kv :: l1, kv2, l2, by simp [hsplit], by rw [hstep]; exact hres,
          h30, hsb, ?_, haft⟩
        intro kv3 hm
        rcases List.mem_cons.mp hm with rfl | hm2
        · rcases hd with h | h
          · exact lt_of_le_of_lt h hsb
          · exact lt_of_le_of_lt h h30
        · exact hbef kv3 hm2

/-- The scan as the code runs it (from `bestMatch = null`, `bestScore = 0`):
`none` exactly when no entry clears the threshold, otherwise the first
highest-scoring entry above it. -/
theorem bestFuzzy_spec (n : String) (l : List (String × String)) :
    ((bestFuzzy n l (none, 0)).1 = none → ∀ kv ∈ l, fuzzyScore n kv.1 ≤ 30) ∧
    (∀ v, (bestFuzzy n l (none, 0)).1 = some v →
      ∃ l1 kv l2, l = l1 ++ kv :: l2 ∧ v = kv.2 ∧ 30 < fuzzyScore n kv.1 ∧
        (∀ kv2 ∈ l1, fuzzyScore n kv2.1 < fuzzyScore n kv.1) ∧
        (∀ kv2 ∈ l2, fuzzyScore n kv2.1 ≤ fuzzyScore n kv.1)) := by
  rcases bestFuzzy_inv n l none 0 with
    ⟨heq, hall⟩ | ⟨l1, kv, l2, hsplit, hres, h30, -, hbef, haft⟩
  · constructor
    · intro _ kv hm
      rcases hall kv hm with h | h
      · exact le_trans h (by norm_num)
      · exact h
    · intro v hv
      rw [heq] at hv
      exact absurd hv (by simp)
  · constructor
    · intro hnone
      rw [hres] at hnone
      exact absurd hnone (by simp)
    · intro v hv
      rw [hres] at hv
      exact ⟨l1, kv, l2, hsplit, by simpa using hv.symm, h30, hbef, haft⟩

/-! ## Helper lemmas: maps and the lookup structures -/

theorem mapGet?_some_mem {m : JsMap} {k v : String} (h : mapGet? m k = some v) :
    ∃ kv ∈ m, kv.1 = k ∧ kv.2 = v := by
  simp only [mapGet?, Option.map_eq_some'] at h
  rcases h with ⟨kv, hfind, hv⟩
  exact ⟨kv, List.mem_of_find?_eq_some hfind, by simpa using List.find?_some hfind, hv⟩

theorem mapGet?_some_value_mem {m : JsMap} {k v : String} (h : mapGet? m k = some v) :
    v ∈ mapValues m := by
  rcases mapGet?_some_mem h with ⟨kv, hm, -, rfl⟩
  exact List.mem_map_of_mem _ hm

theorem mem_mapValues_mapSet {m : JsMap} {k v x : String}
    (h : x ∈ mapValues (mapSet m k v)) : x ∈ mapValues m ∨ x = v := by
  by_cases hh : mapHas m k = true
  · rw [mapSet, if_pos hh] at h
    rcases List.mem_map.mp h with ⟨kv, hkv, hx⟩
    rcases List.mem_map.mp hkv with ⟨kv0, hkv0, hf⟩
    by_cases hk : (kv0.1 == k) = true
    · right
      rw [if_pos hk] at hf
      rw [← hx, ← hf]
    · left
      rw [if_neg hk] at hf
      subst hf
      exact hx ▸ List.mem_map_of_mem _ hkv0
  · rw [mapSet, if_neg hh] at h
    rw [mapValues, List.map_append, List.mem_append] at h
    rcases h with h | h
    · exact Or.inl h
    · simp at h
      exact Or.inr h

theorem mapSet_fresh {m : JsMap} {k v : String} (h : mapHas m k = false) :
    mapSet m k v = m ++ [(k, v)] := by
  simp [mapSet, h]

theorem foldl_addIcon_fst (icons : List DbIcon) (k : String) :
    ∀ acc : JsMap × JsMap, (icons.foldl (addIcon k) acc).1 = icons.foldl plStep acc.1 := by
  induction icons with
  | nil => intro acc; rfl
  | cons ic t ih =>
    intro acc
    rw [List.foldl_cons, List.foldl_cons, ih]
    rfl

theorem dbIcons_cons (k : String) (icons : List DbIcon) (db : Database) :
    dbIcons ((k, icons) :: db) = icons ++ dbIcons db := by
  simp [dbIcons]

theorem buildLookups_fst_eq (db : Database) :
    ∀ acc : JsMap × JsMap,
      (db.foldl (fun acc e => e.2.foldl (addIcon e.1) acc) acc).1 =
        (dbIcons db).foldl plStep acc.1 := by
  induction db with
  | nil => intro acc; rfl
  | cons e db ih =>
    intro acc
    rcases e with ⟨k, icons⟩
    rw [List.foldl_cons, ih, foldl_addIcon_fst icons k acc, dbIcons_cons, List.foldl_append]

theorem mapHas_append (m1 m2 : JsMap) (k : String) :
    mapHas (m1 ++ m2) k = (mapHas m1 k || mapHas m2 k) := List.any_append

theorem plFold_literal :
    ∀ (icons : List DbIcon) (m : JsMap),
      (∀ ic ∈ icons, mapHas m (jsToLower ic.exactPath) = false) →
      (icons.map fun ic => jsToLower ic.exactPath).Nodup →
      icons.foldl plStep m = m ++ icons.map lowPair := by
  intro icons
  induction icons with
  | nil => intro m _ _; simp
  | cons ic t ih =>
    intro m hfresh hnodup
    have hstep : plStep m ic = m ++ [lowPair ic] :=
      mapSet_fresh (hfresh ic (List.mem_cons_self ic t))
    rw [List.foldl_cons, hstep, ih]
    · simp
    · intro ic2 hm
      rw [mapHas_append, hfresh ic2 (List.mem_cons_of_mem _ hm), Bool.false_or]
      have hne : jsToLower ic.exactPath ≠ jsToLower ic2.exactPath := by
        intro hcon
        exact (List.nodup_cons.mp hnodup).1 (List.mem_map.mpr ⟨ic2, hm, hcon.symm⟩)
      simp [mapHas, lowPair, hne]
    · exact (List.nodup_cons.mp hnodup).2

/-- With case-insensitively duplicate-free canonical paths, `pathLookup` is
literally the list of `(lowercased path, path)` pairs in database order. -/
theorem buildLookups_pl_literal (db : Database)
    (H1 : ((dbIcons db).map fun ic => jsToLower ic.exactPath).Nodup) :
    (buildLookups db).1 = (dbIcons db).map lowPair := by
  have h := buildLookups_fst_eq db ([], [])
  rw [buildLookups, h, plFold_literal (dbIcons db) [] (by intro ic _; rfl) H1]
  rfl

theorem mapGet?_literal (icons : List DbIcon)
    (hnodup : (icons.map fun ic => jsToLower ic.exactPath).Nodup) :
    ∀ ic ∈ icons, mapGet? (icons.map lowPair) (jsToLower ic.exactPath) = some ic.exactPath := by
  induction icons with
  | nil => intro ic h; cases h
  | cons ic0 t ih =>
    intro ic hm
    rcases List.mem_cons.mp hm with rfl | hmt
    · simp [mapGet?, lowPair]
    · have hne : jsToLower ic0.exactPath ≠ jsToLower ic.exactPath := by
        intro hcon
        exact (List.nodup_cons.mp hnodup).1 (List.mem_map.mpr ⟨ic, hmt, hcon.symm⟩)
      have := ih (List.nodup_cons.mp hnodup).2 ic hmt
      simpa [mapGet?, lowPair, hne] using this

/-- Round trip: under the uniqueness invariant, looking a canonical path's
lowercase up in `pathLookup` returns exactly that path. -/
theorem pl_get_roundtrip (db : Database)
    (H1 : ((dbIcons db).map fun ic => jsToLower ic.exactPath).Nodup)
    {p : String} (hp : p ∈ dbPaths db) :
    mapGet? (buildLookups db).1 (jsToLower p) = some p := by
  rcases List.mem_map.mp hp with ⟨ic, hic, rfl⟩
  rw [buildLookups_pl_literal db H1]
  exact mapGet?_literal (dbIcons db) H1 ic hic

theorem pl_values_eq (db : Database)
    (H1 : ((dbIcons db).map fun ic => jsToLower ic.exactPath).Nodup) :
    mapValues (buildLookups db).1 = dbPaths db := by
  rw [buildLookups_pl_literal db H1]
  simp [mapValues, dbPaths, lowPair, List.map_map]

theorem addIcon_snd_values {k : String} {acc : JsMap × JsMap} {ic : DbIcon} {v : String}
    (h : v ∈ mapValues (addIcon k acc ic).2) : v ∈ mapValues acc.2 ∨ v = ic.exactPath := by
  simp only [addIcon] at h
  by_cases hh : mapHas (mapSet acc.2 k ic.exactPath)
      (stripNonAlnum (jsToLower (jsReplaceFirst ic.filename ".svg" ""))) = true
  · rw [if_pos hh] at h
    exact mem_mapValues_mapSet h
  · rw [if_neg hh] at h
    rcases mem_mapValues_mapSet h with h2 | h2
    · exact mem_mapValues_mapSet h2
    · exact Or.inr h2

theorem foldl_addIcon_snd_sub (icons : List DbIcon) (k : String) :
    ∀ (acc : JsMap × JsMap) (v : String),
      v ∈ mapValues ((icons.foldl (addIcon k) acc).2) →
      v ∈ mapValues acc.2 ∨ v ∈ icons.map (·.exactPath) := by
  induction icons with
  | nil => intro acc v h; exact Or.inl h
  | cons ic t ih =>
    intro acc v h
    rw [List.foldl_cons] at h
    rcases ih (addIcon k acc ic) v h with h2 | h2
    · rcases addIcon_snd_values h2 with h3 | h3
      · exact Or.inl h3
      · exact Or.inr (by simp [h3])
    · exact Or.inr (List.mem_cons_of_mem _ h2)

/-- Every value of `searchLookup` is a canonical path of the database. -/
theorem buildLookups_sl_sub (db : Database) :
    ∀ (acc : JsMap × JsMap) (v : String),
      v ∈ mapValues ((db.foldl (fun acc e => e.2.foldl (addIcon e.1) acc) acc).2) →
      v ∈ mapValues acc.2 ∨ v ∈ dbPaths db := by
  induction db with
  | nil => intro acc v h; exact Or.inl h
  | cons e db ih =>
    intro acc v h
    rw [List.foldl_cons] at h
    rcases ih (e.2.foldl (addIcon e.1) acc) v h with h2 | h2
    · rcases foldl_addIcon_snd_sub e.2 e.1 acc v h2 with h3 | h3
      · exact Or.inl h3
      · refine Or.inr ?_
        rcases e with ⟨k, icons⟩
        rw [dbPaths, dbIcons_cons, List.map_append, List.mem_append]
        exact Or.inl h3
    · refine Or.inr ?_
      rcases e with ⟨k, icons⟩
      rw [dbPaths, dbIcons_cons, List.map_append, List.mem_append]
      exact Or.inr h2

theorem sl_values_sub (db : Database) {v : String}
    (h : v ∈ mapValues (buildLookups db).2) : v ∈ dbPaths db := by
  rcases buildLookups_sl_sub db ([], []) v h with h2 | h2
  · cases h2
  · exact h2

theorem bestFuzzy_some_mem {n : String} {l : List (String × String)} {v : String}
    (h : (bestFuzzy n l (none, 0)).1 = some v) : v ∈ mapValues l := by
  rcases bestFuzzy_inv n l none 0 with ⟨heq, -⟩ | ⟨l1, kv, l2, hsplit, hres, -, -, -, -⟩
  · rw [heq] at h
    exact absurd h (by simp)
  · rw [hres] at h
    have hv : v = kv.2 := by simpa using h.symm
    rw [hv, hsplit, mapValues]
    exact List.mem_map_of_mem _ (by simp)

/-- Under the uniqueness invariant and a General-ish entry, every repaired
icon is a canonical database path. -/
theorem processIcon_result_mem (db : Database)
    (H1 : ((dbIcons db).map fun ic => jsToLower ic.exactPath).Nodup)
    (H2 : ∃ p ∈ dbPaths db, jsIncludes p "/General/" = true) (icon : String) :
    (processIcon (buildLookups db).1 (buildLookups db).2 icon).1 ∈ dbPaths db := by
  cases hg : mapGet? (buildLookups db).1 (jsToLower icon) with
  | some correctPath =>
    have hmem : correctPath ∈ dbPaths db := by
      rw [← pl_values_eq db H1]
      exact mapGet?_some_value_mem hg
    by_cases hne : correctPath = icon
    · have heq : processIcon (buildLookups db).1 (buildLookups db).2 icon = (icon, 0, 0) := by
        simp [processIcon, hg, hne]
      rw [heq]
      exact hne ▸ hmem
    · have heq : processIcon (buildLookups db).1 (buildLookups db).2 icon =
          (correctPath, 1, 0) := by
        simp [processIcon, hg, hne]
      rw [heq]
      exact hmem
  | none =>
    cases hs : mapGet? (buildLookups db).2 (normalizeCandidate icon) with
    | some p =>
      have heq : processIcon (buildLookups db).1 (buildLookups db).2 icon = (p, 1, 1) := by
        simp [processIcon, hg, hs]
      rw [heq]
      exact sl_values_sub db (mapGet?_some_value_mem hs)
    | none =>
      cases hb : (bestFuzzy (normalizeCandidate icon) (buildLookups db).2 (none, 0)).1 with
      | some p =>
        have heq : processIcon (buildLookups db).1 (buildLookups db).2 icon = (p, 1, 1) := by
          simp [processIcon, hg, hs, hb]
        rw [heq]
        exact sl_values_sub db (bestFuzzy_some_mem hb)
      | none =>
        cases hf : (mapValues (buildLookups db).1).find? (fun p => jsIncludes p "/General/") with
        | some g =>
          have heq : processIcon (buildLookups db).1 (buildLookups db).2 icon = (g, 1, 1) := by
            simp [processIcon, hg, hs, hb, hf]
          rw [heq]
          have hmem : g ∈ mapValues (buildLookups db).1 := List.mem_of_find?_eq_some hf
          rw [pl_values_eq db H1] at hmem
          exact hmem
        | none =>
          exfalso
          rcases H2 with ⟨p, hp, hgen⟩
          have hex : ((mapValues (buildLookups db).1).find?
              (fun p => jsIncludes p "/General/")).isSome := by
            refine List.find?_isSome.mpr ⟨p, ?_, hgen⟩
            rw [pl_values_eq db H1]
            exact hp
          rw [hf] at hex
          exact absurd hex (by simp)

/-- A canonical database path passes the exact stage untouched and
uncounted. -/
theorem processIcon_roundtrip (db : Database)
    (H1 : ((dbIcons db).map fun ic => jsToLower ic.exactPath).Nodup)
    {p : String} (hp : p ∈ dbPaths db) :
    processIcon (buildLookups db).1 (buildLookups db).2 p = (p, 0, 0) := by
  have hg := pl_get_roundtrip db H1 hp
  simp [processIcon, hg]

/-- A node whose icon is already a canonical path (or empty) is left
untouched and uncounted. -/
theorem processNode_of_mem (db : Database)
    (H1 : ((dbIcons db).map fun ic => jsToLower ic.exactPath).Nodup)
    {n : Node} (hmem : n.icon ∈ dbPaths db) :
    processNode (buildLookups db).1 (buildLookups db).2 n = (n, 0, 0) := by
  by_cases h1 : n.icon = ""
  · simp [processNode, h1]
  · have hround := processIcon_roundtrip db H1 hmem
    simp [processNode, h1, hround]

/-- Processing any once-processed node again changes nothing and counts
nothing. -/
theorem processNode_second (db : Database)
    (H1 : ((dbIcons db).map fun ic => jsToLower ic.exactPath).Nodup)
    (H2 : ∃ p ∈ dbPaths db, jsIncludes p "/General/" = true) (n0 : Node) :
    processNode (buildLookups db).1 (buildLookups db).2
        ((processNode (buildLookups db).1 (buildLookups db).2 n0).1) =
      ((processNode (buildLookups db).1 (buildLookups db).2 n0).1, 0, 0) := by
  by_cases h0 : n0.icon = ""
  · simp [processNode, h0]
  · have hstep : (processNode (buildLookups db).1 (buildLookups db).2 n0).1 =
        { n0 with icon := (processIcon (buildLookups db).1 (buildLookups db).2 n0.icon).1 } := by
      simp [processNode, h0]
    rw [hstep]
    exact processNode_of_mem db H1 (processIcon_result_mem db H1 H2 n0.icon)

/-- `validateAndFixPaths` unfolded to its parts (definitional). -/
theorem validateAndFixPaths_eq (db : Database) (d : Diagram) :
    validateAndFixPaths db d =
      ⟨⟨(d.nodes.map (processNode (buildLookups db).1 (buildLookups db).2)).map (·.1),
        d.edges⟩,
       ((d.nodes.map (processNode (buildLookups db).1 (buildLookups db).2)).map
         fun r => r.2.1).sum,
       ((d.nodes.map (processNode (buildLookups db).1 (buildLookups db).2)).map
         fun r => r.2.2).sum⟩ := rfl

theorem map_proj_triv (l : List Node) :
    (l.map fun n => (n, (0 : Nat), (0 : Nat))).map (·.1) = l := by
  simp [List.map_map, Function.comp_def]

theorem sum_fst_triv (l : List Node) :
    ((l.map fun n => (n, (0 : Nat), (0 : Nat))).map fun r => r.2.1).sum = 0 := by
  simp [List.map_map, Function.comp_def]

theorem sum_snd_triv (l : List Node) :
    ((l.map fun n => (n, (0 : Nat), (0 : Nat))).map fun r => r.2.2).sum = 0 := by
  simp [List.map_map, Function.comp_def]

/-! ## The claims -/

/-- Claim C1, counterexample: on the empty icon database the node whose
icon resolves nowhere keeps its invalid path, and a second run of
`validateAndFixPaths` on the first run's output reports `invalidCount = 1`,
not `0` — the claimed idempotence fails for this diagram and index. -/
theorem validate_second_pass_not_clean :
    (validateAndFixPaths [] ((validateAndFixPaths [] dFoo).diagram)).invalidCount = 1 ∧
    (validateAndFixPaths [] dFoo).diagram = dFoo := by
  decide

/-- Claim C1 (amended): when the database's lowercased canonical paths are
duplicate-free and some canonical path contains the segment `/General/`
(so every node resolves), running `validateAndFixPaths` a second time on
the diagram produced by the first run changes no node's icon — it returns
the first pass's diagram unchanged — and reports `fixedCount = 0` and
`invalidCount = 0`. -/
theorem validate_idempotent_amended (db : Database) (d : Diagram)
    (H1 : ((dbIcons db).map fun ic => jsToLower ic.exactPath).Nodup)
    (H2 : ∃ p ∈ dbPaths db, jsIncludes p "/General/" = true) :
    validateAndFixPaths db (validateAndFixPaths db d).diagram =
      ⟨(validateAndFixPaths db d).diagram, 0, 0⟩ := by
  have hmap : (((d.nodes.map (processNode (buildLookups db).1 (buildLookups db).2)).map
        (·.1)).map (processNode (buildLookups db).1 (buildLookups db).2)) =
      ((d.nodes.map (processNode (buildLookups db).1 (buildLookups db).2)).map (·.1)).map
        (fun n => (n, (0 : Nat), (0 : Nat))) := by
    refine List.map_congr_left ?_
    intro n1 h
    rcases List.mem_map.mp h with ⟨r, hr, rfl⟩
    rcases List.mem_map.mp hr with ⟨n0, hn0, rfl⟩
    exact processNode_second db H1 H2 n0
  have h1 : (validateAndFixPaths db d).diagram =
      ⟨(d.nodes.map (processNode (buildLookups db).1 (buildLookups db).2)).map (·.1),
        d.edges⟩ := rfl
  rw [h1, validateAndFixPaths_eq]
  dsimp only
  rw [hmap, map_proj_triv, sum_fst_triv, sum_snd_triv]

/-- Claim C1, witness: the amended idempotence at a concrete database (an
AWS icon plus a General icon) and a concrete diagram. -/
theorem validate_idempotent_amended_witness :
    validateAndFixPaths dbLambda (validateAndFixPaths dbLambda dLambda).diagram =
      ⟨(validateAndFixPaths dbLambda dLambda).diagram, 0, 0⟩ :=
  validate_idempotent_amended dbLambda dLambda (by decide) (by decide)

/-- Claim C2, counterexample: calling the validator on the diagram object
stored at address 0 modifies that very object — after the call the caller's
diagram differs from the one passed in (its node's icon was rewritten in
place) and the returned reference is the same address, not a fresh object. -/
theorem validate_mutates_input :
    (callValidate dbLambda storeLambda 0).1.diagrams 0 ≠ storeLambda.diagrams 0 ∧
    (callValidate dbLambda storeLambda 0).2 = 0 := by
  constructor
  · decide
  · rfl

/-- Claim C2 (amended): `validateAndFixPaths` never throws (it is a total
transformation) and recovers per-node failures locally, but it updates the
passed-in diagram's nodes in place and returns the very reference it was
given: the call leaves the stored object rewritten to the validator's
result, keeps the edges, and changes at most the `icon` field of each node
(so no node is dropped or aborted). -/
theorem validate_inplace_total (db : Database) (s : Store) (a : Nat) :
    (callValidate db s a).2 = a ∧
    (callValidate db s a).1.diagrams a = (validateAndFixPaths db (s.diagrams a)).diagram ∧
    (validateAndFixPaths db (s.diagrams a)).diagram.edges = (s.diagrams a).edges ∧
    List.Forall₂
      (fun n0 n1 => n1.id = n0.id ∧ n1.label = n0.label ∧ n1.type = n0.type ∧
        n1.position = n0.position)
      (s.diagrams a).nodes (validateAndFixPaths db (s.diagrams a)).diagram.nodes := by
  refine ⟨rfl, by simp [callValidate], rfl, ?_⟩
  have hno : (validateAndFixPaths db (s.diagrams a)).diagram.nodes =
      (s.diagrams a).nodes.map
        (fun n => (processNode (buildLookups db).1 (buildLookups db).2 n).1) := by
    rw [validateAndFixPaths_eq]
    simp [List.map_map, Function.comp_def]
  rw [hno, List.forall₂_map_right_iff, List.forall₂_same]
  intro n hn
  by_cases h : n.icon = ""
  · simp [processNode, h]
  · simp [processNode, h]

/-- Claim C3, counterexample: in `dbCatGeneral` the General provider pool is
empty — no entry's provider segment is `General` — and the node's icon
fails every matching stage, yet the validator does not keep the original
path: it substitutes the AWS icon whose category folder happens to be named
`General`. -/
theorem generic_fallback_counterexample :
    ((dbIcons dbCatGeneral).all fun ic => !(pathProvider ic.exactPath == "General")) = true ∧
    (validateAndFixPaths dbCatGeneral dZ).diagram.nodes.map (·.icon) =
      ["assets/icons/AWS/General/X.svg"] ∧
    (validateAndFixPaths dbCatGeneral dZ).fixedCount = 1 := by
  refine ⟨by decide, by decide, by decide⟩

/-- Claim C3 (amended): for a node whose non-empty icon fails the exact,
normalized and scored stages, the validator substitutes the first
`pathLookup` value containing the segment `/General/` — an entry of the
General provider pool whenever no other provider has a category folder
named `General` — counting the node invalid and fixed; only when no stored
path contains `/General/` does the node keep its original, invalid path
(counted invalid, not fixed). -/
theorem generic_fallback_amended (pl sl : JsMap) (n : Node)
    (h0 : n.icon ≠ "")
    (h1 : mapGet? pl (jsToLower n.icon) = none)
    (h2 : mapGet? sl (normalizeCandidate n.icon) = none)
    (h3 : (bestFuzzy (normalizeCandidate n.icon) sl (none, 0)).1 = none) :
    (∀ g, (mapValues pl).find? (fun p => jsIncludes p "/General/") = some g →
      processNode pl sl n = ({ n with icon := g }, 1, 1) ∧
      g ∈ mapValues pl ∧ jsIncludes g "/General/" = true) ∧
    ((mapValues pl).find? (fun p => jsIncludes p "/General/") = none →
      processNode pl sl n = (n, 0, 1)) := by
  constructor
  · intro g hg
    refine ⟨by simp [processNode, h0, processIcon, h1, h2, h3, hg],
      List.mem_of_find?_eq_some hg, by simpa using List.find?_some hg⟩
  · intro hg
    simp [processNode, h0, processIcon, h1, h2, h3, hg]

/-- Claim C3, witness: the amended fallback at a concrete database — the
unmatchable icon `zzzz` is rewritten to the first General-segment path of
`dbLambda`'s lookup. -/
theorem generic_fallback_amended_witness :
    processNode (buildLookups dbLambda).1 (buildLookups dbLambda).2
        ⟨"n1", "Z", "zzzz", "service", ⟨0, 0⟩⟩ =
      (⟨"n1", "Z", "assets/icons/General/App.svg", "service", ⟨0, 0⟩⟩, 1, 1) :=
  ((generic_fallback_amended (buildLookups dbLambda).1 (buildLookups dbLambda).2
      ⟨"n1", "Z", "zzzz", "service", ⟨0, 0⟩⟩
      (by decide) (by decide) (by decide) (by decide)).1
    "assets/icons/General/App.svg" (by decide)).1

/-- Claim C4, counterexample: for candidate name `a` and index key `ab` the
claimed formula scores the prefix pair (1/2)·150 = 75, above the threshold
30, so the claim demands resolution to the `ab` entry — but the code's
stage scores the pair 0 (its prefix stage requires the shorter name to have
at least 2 characters), and on the matching one-entry database the
validator fixes nothing and leaves the node's invalid icon unchanged. -/
theorem score_guard_counterexample :
    claimedScore "a" "ab" = 75 ∧ fuzzyScore "a" "ab" = 0 ∧
    (validateAndFixPaths dbAB dA).diagram.nodes.map (·.icon) = ["a.svg"] ∧
    (validateAndFixPaths dbAB dA).fixedCount = 0 := by
  refine ⟨?_, by decide, by decide, by decide⟩
  have h1 : jsStartsWith "ab" "a" = true := by decide
  have h2 : ¬("ab" : String) = "a" := by decide
  norm_num [claimedScore, h1, h2, jsLen, jsStartsWith, listStarts]

/-- Claim C4 (amended): the similarity score is 200 on exact equality,
(shorter/longer)·150 when one normalized name is a prefix of the other and
the shorter has at least 2 characters, and (shorter/longer)·100 when one
contains the other and the shorter has at least 3 characters (0 otherwise);
the scan returns none exactly when no entry scores above the threshold 30,
and otherwise picks the highest-scoring entry, ties broken by the first
entry in index insertion order; candidate normalized name `s3` resolves to
the `s3bucket` entry's canonical path before any generic fallback. -/
theorem fuzzy_scoring_amended :
    (∀ n k, fuzzyScore n k = amendedScore n k) ∧
    (∀ n (entries : List (String × String)),
      ((bestFuzzy n entries (none, 0)).1 = none →
        ∀ kv ∈ entries, fuzzyScore n kv.1 ≤ 30) ∧
      (∀ v, (bestFuzzy n entries (none, 0)).1 = some v →
        ∃ l1 kv l2, entries = l1 ++ kv :: l2 ∧ v = kv.2 ∧ 30 < fuzzyScore n kv.1 ∧
          (∀ kv2 ∈ l1, fuzzyScore n kv2.1 < fuzzyScore n kv.1) ∧
          (∀ kv2 ∈ l2, fuzzyScore n kv2.1 ≤ fuzzyScore n kv.1))) ∧
    (validateAndFixPaths dbS3 dS3).diagram.nodes.map (·.icon) =
      ["assets/icons/AWS/Storage/S3-bucket.svg"] ∧
    (validateAndFixPaths dbS3 dS3).fixedCount = 1 :=
  ⟨fuzzyScore_eq_amendedScore, fun n entries => bestFuzzy_spec n entries,
    by decide, by decide⟩

/-- Claim C5, counterexample: the raw text `123` contains no brace, so the
claim requires the parse to fail with a ParseError — but the route, finding
no brace-span, feeds the whole text to `JSON.parse`, which succeeds with
the bare number 123 and the request is answered successfully. -/
theorem parse_bare_number_counterexample :
    extractJson "123" = "123" ∧ parseGeneratedResponse "123" = some (Json.jnum 123) :=
  ⟨rfl, rfl⟩

/-- Claim C5 (amended): the route extracts the substring from the first
opening brace to the last closing brace when that closing brace comes
later; otherwise — in particular whenever the text contains no opening
brace — the raw text itself is the parse candidate. The candidate is parsed
as JSON with no partial recovery and a failure surfaces to the caller as an
error, so a prose-wrapped payload parses and brace-free prose fails; but a
brace-free text that is itself a valid JSON value (e.g. a bare number)
parses successfully instead of failing. -/
theorem generation_parse_amended :
    (∀ s : String, idxOfFirst '\x7b' s.toList = none → extractJson s = s) ∧
    parseGeneratedResponse
        "Here is the diagram:\n```json\n\x7b\"nodes\":[],\"edges\":[]\x7d\n```\nHope this helps!" =
      some (Json.jobj [("nodes", Json.jarr []), ("edges", Json.jarr [])]) ∧
    parseGeneratedResponse "I cannot help with that request." = none ∧
    parseGeneratedResponse "123" = some (Json.jnum 123) := by
  refine ⟨?_, rfl, rfl, rfl⟩
  intro s h
  simp only [String.toList] at h
  simp [extractJson, String.toList, h]

/-- Claim C6: a node whose non-empty icon equals a canonical database path
under case-insensitive comparison is repaired by the exact stage: when the
casing differs the icon is rewritten to the canonical casing and the node
contributes 1 to `fixedCount` (and 0 to `invalidCount`); when the icon
already equals the canonical path it is left unchanged and contributes to
neither count.  The database's lowercased canonical paths are assumed
duplicate-free (the data model's uniqueness invariant, which makes "the
canonical casing" well defined). -/
theorem case_repair_spec (db : Database) (n : Node) (ic : DbIcon)
    (H1 : ((dbIcons db).map fun icn => jsToLower icn.exactPath).Nodup)
    (h0 : n.icon ≠ "")
    (hic : ic ∈ dbIcons db)
    (hlow : jsToLower ic.exactPath = jsToLower n.icon) :
    (n.icon ≠ ic.exactPath →
      processNode (buildLookups db).1 (buildLookups db).2 n =
        ({ n with icon := ic.exactPath }, 1, 0)) ∧
    (n.icon = ic.exactPath →
      processNode (buildLookups db).1 (buildLookups db).2 n = (n, 0, 0)) := by
  have hget : mapGet? (buildLookups db).1 (jsToLower n.icon) = some ic.exactPath := by
    rw [← hlow]
    exact pl_get_roundtrip db H1 (List.mem_map_of_mem _ hic)
  constructor
  · intro hne
    simp [processNode, h0, processIcon, hget, Ne.symm hne]
  · intro heq
    simp [processNode, processIcon, h0, hget, ← heq]

/-- Claim C6, witness: the specification's Lambda example — lowercased icon
path repaired to the canonical casing, one fix counted. -/
theorem case_repair_spec_witness :
    processNode (buildLookups dbLambda).1 (buildLookups dbLambda).2 nodeLambdaLower =
      ({ nodeLambdaLower with icon := "assets/icons/AWS/Compute/Lambda.svg" }, 1, 0) :=
  (case_repair_spec dbLambda nodeLambdaLower
      ⟨"assets/icons/AWS/Compute/Lambda.svg", "Lambda.svg"⟩
      (by decide) (by decide) (by decide) (by decide)).1 (by decide)

/-- Helper: the default branch of provider detection never returns an empty
list. -/
theorem ifEmpty_ne_nil (l : List String) : (if l.isEmpty then ["General"] else l) ≠ [] := by
  split_ifs with h
  · simp
  · intro hc
    exact h (by simp [hc])

/-- Claim C7: with empty explicit overrides the returned provider list is a
sublist of the fixed priority order AWS, Azure, GCP, Kubernetes, Monitoring
(or the default `["General"]`); it depends only on which triggers fire —
never on where the keywords sit in the text — and the `/api/generate`
route's icon-pool provider sequence always carries General, appended as a
fallback unless already selected. -/
theorem provider_priority_general_pool (md md2 : String) :
    ((detectProviders md []).Sublist providerPriority ∨ detectProviders md [] = ["General"]) ∧
    ((∀ p ∈ providerPriority, providerTriggered md p = providerTriggered md2 p) →
      detectProviders md [] = detectProviders md2 []) ∧
    "General" ∈ requestIconProviders md [] ∧
    ("General" ∉ detectProviders md [] →
      requestIconProviders md [] = detectProviders md [] ++ ["General"]) := by
  refine ⟨?_, ?_, ?_, ?_⟩
  · by_cases h1 : awsTrig (jsToLower md) = true <;>
    by_cases h2 : azureTrig (jsToLower md) = true <;>
    by_cases h3 : gcpTrig (jsToLower md) = true <;>
    by_cases h4 : k8sTrig (jsToLower md) = true <;>
    by_cases h5 : monTrig (jsToLower md) = true <;>
    simp [detectProviders, h1, h2, h3, h4, h5, providerPriority] <;>
    decide
  · intro h
    have hA := h "AWS" (by simp [providerPriority])
    have hZ := h "Azure" (by simp [providerPriority])
    have hG := h "GCP" (by simp [providerPriority])
    have hK := h "Kubernetes" (by simp [providerPriority])
    have hM := h "Monitoring" (by simp [providerPriority])
    simp [providerTriggered] at hA hZ hG hK hM
    simp only [detectProviders, hA, hZ, hG, hK, hM]
  · rw [requestIconProviders]
    cases hc : (detectProviders md []).contains "General"
    · simp [hc]
    · simp only [hc, if_pos]
      simpa using hc
  · intro hnot
    simp [requestIconProviders, hnot]

/-- Claim C8: a non-empty explicit provider list is returned verbatim — no
keyword inference happens on the text. -/
theorem explicit_override_wins (md : String) (e : List String) (he : e ≠ []) :
    detectProviders md e = e := by
  simp [detectProviders, List.length_pos.mpr he]

/-- Claim C8, witness: the specification's example — the AWS keyword in the
text is ignored when the user picked Azure. -/
theorem explicit_override_wins_witness :
    detectProviders "uses AWS Lambda" ["Azure"] = ["Azure"] :=
  explicit_override_wins "uses AWS Lambda" ["Azure"] (by decide)

/-- Helper: the empty inventory text splits into one empty line. -/
theorem jsSplitLines_empty : jsSplitLines "" = [""] := rfl

/-- Helper: the extraction loop yields nothing on the single empty line an
empty inventory text splits into, for any provider. -/
theorem extractLoopGo_empty (provider : String) :
    extractLoopGo provider [""] false "" = [] := by
  have hh : isProvHeader provider "" = false := rfl
  simp [extractLoopGo, hh]

/-- Claim C9, counterexample: with the unreadable inventory modelled as the
empty string, `extractProviderIcons` does *not* yield zero entries for
every provider — for General with a readable icon directory the filesystem
fallback still contributes the on-disk `.svg` files. -/
theorem empty_inventory_counterexample :
    extractProviderIcons "" "General" "/app" (some ["a.svg"]) = [generalDiskEntry "a.svg"] ∧
    generalDiskEntry "a.svg" =
      ⟨"General", "General-Icons", "a.svg", "assets/icons/General/a.svg"⟩ := by
  exact ⟨by decide, rfl⟩

/-- Claim C9 (amended): an unreadable inventory source (empty text) yields
zero tree entries for every provider; only the General provider can still
gain entries — from its filesystem fallback when the directory is readable,
namely exactly the on-disk `.svg` files — and the pipeline does not crash
downstream: provider detection always returns a non-empty list and the
validator still returns a diagram with every node processed. -/
theorem empty_inventory_amended :
    (∀ provider root fs, ¬(provider = "General" ∧ root ≠ "") →
      extractProviderIcons "" provider root fs = []) ∧
    (∀ root, extractProviderIcons "" "General" root none = []) ∧
    (∀ root files, root ≠ "" →
      extractProviderIcons "" "General" root (some files) =
        (files.filter fun f => jsEndsWith f ".svg").map generalDiskEntry) ∧
    (∀ md, detectProviders md [] ≠ []) ∧
    (∀ db d, (validateAndFixPaths db d).diagram.nodes.length = d.nodes.length) := by
  refine ⟨?_, ?_, ?_, ?_, ?_⟩
  · intro provider root fs hno
    simp [extractProviderIcons, jsSplitLines_empty, extractLoopGo_empty, hno]
  · intro root
    by_cases hr : root = "" <;>
      simp [extractProviderIcons, jsSplitLines_empty, extractLoopGo_empty, hr]
  · intro root files hroot
    simp [extractProviderIcons, jsSplitLines_empty, extractLoopGo_empty, hroot]
  · intro md
    simp only [detectProviders]
    rw [if_neg (by simp)]
    exact ifEmpty_ne_nil _
  · intro db d
    rw [validateAndFixPaths_eq]
    simp

/-- Claim C9, witness: the amended statement applied at concrete inputs —
a non-General provider parses to nothing, an unreadable General directory
parses to nothing, and a readable one contributes exactly its `.svg`
files. -/
theorem empty_inventory_amended_witness :
    extractProviderIcons "" "AWS" "/app" none = [] ∧
    extractProviderIcons "" "General" "/app" none = [] ∧
    extractProviderIcons "" "General" "/app" (some ["a.svg", "b.txt"]) =
      [generalDiskEntry "a.svg"] :=
  ⟨empty_inventory_amended.1 "AWS" "/app" none (by decide),
   empty_inventory_amended.2.1 "/app",
   by
     have h := empty_inventory_amended.2.2.1 "/app" ["a.svg", "b.txt"] (by decide)
     rw [h]
     decide⟩

/-- Helper: the partial-match loop of `findCorrectIconPath` either leaves
the accumulator's candidate or picks some entry's stored path. -/
theorem fcpBest_acc (nAI : String) (l : List (String × String)) :
    ∀ acc : Option String × ℚ, (fcpBest nAI l acc).1 = acc.1 ∨
      ∃ kv ∈ l, (fcpBest nAI l acc).1 = some kv.2 := by
  induction l with
  | nil => intro acc; exact Or.inl rfl
  | cons kv t ih =>
    intro acc
    by_cases hc : fcpScore nAI (normalizeString (jsReplaceFirst kv.1 ".svg" "")) > acc.2
    · have hstep : fcpBest nAI (kv :: t) acc =
          fcpBest nAI t (some kv.2, fcpScore nAI (normalizeString (jsReplaceFirst kv.1 ".svg" ""))) := by
        simp [fcpBest, hc]
      rcases ih (some kv.2, fcpScore nAI (normalizeString (jsReplaceFirst kv.1 ".svg" ""))) with
        h | ⟨kv2, hm, h⟩
      · right
        exact ⟨kv, List.mem_cons_self kv t, by rw [hstep]; exact h⟩
      · right
        exact ⟨kv2, List.mem_cons_of_mem _ hm, by rw [hstep]; exact h⟩
    · have hstep : fcpBest nAI (kv :: t) acc = fcpBest nAI t acc := by
        simp [fcpBest, hc]
      rcases ih acc with h | ⟨kv2, hm, h⟩
      · exact Or.inl (by rw [hstep]; exact h)
      · exact Or.inr ⟨kv2, List.mem_cons_of_mem _ hm, by rw [hstep]; exact h⟩

/-- Claim C10: `findCorrectIconPath` is total and conservative — it returns
either a path value stored in the map or the original input path unchanged
(never a null-like value; the partial-substring stage only fires for a
score strictly above 50), and `correctIconPaths` therefore never erases or
nullifies a node's icon: an empty icon leaves the node untouched, a
non-empty icon stays non-empty, and the edges are untouched. -/
theorem findCorrectIconPath_total :
    (∀ aiPath (m : JsMap), findCorrectIconPath aiPath m = aiPath ∨
      findCorrectIconPath aiPath m ∈ mapValues m) ∧
    (∀ aiPath (m : JsMap),
      mapGet? m (jsToLower (lastSegment aiPath)) = none →
      mapGet? m (jsToLower (jsReplaceFirst (lastSegment aiPath) ".svg" "")) = none →
      m.find? (fun kv => normalizeString (jsReplaceFirst kv.1 ".svg" "") ==
          normalizeString (jsToLower (jsReplaceFirst (lastSegment aiPath) ".svg" ""))) = none →
      ¬ (fcpBest (normalizeString (jsToLower (jsReplaceFirst (lastSegment aiPath) ".svg" ""))) m
          (none, 0)).2 > 50 →
      findCorrectIconPath aiPath m = aiPath) ∧
    (∀ icons d, (correctIconPaths icons d).edges = d.edges) ∧
    (∀ icons d, List.Forall₂
      (fun n0 n1 => (n0.icon = "" → n1 = n0) ∧ (n0.icon ≠ "" → n1.icon ≠ ""))
      d.nodes (correctIconPaths icons d).nodes) := by
  refine ⟨?_, ?_, fun icons d => rfl, ?_⟩
  · intro aiPath m
    cases h1 : mapGet? m (jsToLower (lastSegment aiPath)) with
    | some p =>
      have heq : findCorrectIconPath aiPath m = p := by
        simp [findCorrectIconPath, h1]
      rw [heq]
      exact Or.inr (mapGet?_some_value_mem h1)
    | none =>
      cases h2 : mapGet? m (jsToLower (jsReplaceFirst (lastSegment aiPath) ".svg" "")) with
      | some p =>
        have heq : findCorrectIconPath aiPath m = p := by
          simp [findCorrectIconPath, h1, h2]
        rw [heq]
        exact Or.inr (mapGet?_some_value_mem h2)
      | none =>
        cases h3 : m.find? (fun kv => normalizeString (jsReplaceFirst kv.1 ".svg" "") ==
            normalizeString (jsToLower (jsReplaceFirst (lastSegment aiPath) ".svg" ""))) with
        | some kv =>
          have heq : findCorrectIconPath aiPath m = kv.2 := by
            simp [findCorrectIconPath, h1, h2, h3]
          rw [heq]
          exact Or.inr (List.mem_map_of_mem _ (List.mem_of_find?_eq_some h3))
        | none =>
          cases h4 : (fcpBest (normalizeString (jsToLower
              (jsReplaceFirst (lastSegment aiPath) ".svg" ""))) m (none, 0)).1 with
          | some p =>
            by_cases h5 : (fcpBest (normalizeString (jsToLower
                (jsReplaceFirst (lastSegment aiPath) ".svg" ""))) m (none, 0)).2 > 50
            · have heq : findCorrectIconPath aiPath m = p := by
                simp [findCorrectIconPath, h1, h2, h3, h4, h5]
              rw [heq]
              rcases fcpBest_acc (normalizeString (jsToLower
                  (jsReplaceFirst (lastSegment aiPath) ".svg" ""))) m (none, 0) with h | ⟨kv, hm, h⟩
              · rw [h4] at h
                exact absurd h (by simp)
              · rw [h4] at h
                have : p = kv.2 := by simpa using h
                exact Or.inr (this ▸ List.mem_map_of_mem _ hm)
            · have heq : findCorrectIconPath aiPath m = aiPath := by
                simp [findCorrectIconPath, h1, h2, h3, h4, h5]
              exact Or.inl heq
          | none =>
            have heq : findCorrectIconPath aiPath m = aiPath := by
              simp [findCorrectIconPath, h1, h2, h3, h4]
            exact Or.inl heq
  · intro aiPath m h1 h2 h3 h5
    cases h4 : (fcpBest (normalizeString (jsToLower
        (jsReplaceFirst (lastSegment aiPath) ".svg" ""))) m (none, 0)).1 with
    | some p => simp [findCorrectIconPath, h1, h2, h3, h4, h5]
    | none => simp [findCorrectIconPath, h1, h2, h3, h4]
  · intro icons d
    have hno : (correctIconPaths icons d).nodes = d.nodes.map (fun n =>
        if n.icon ≠ "" then
          let c := findCorrectIconPath n.icon (buildIconMap icons)
          if c ≠ "" then { n with icon := c } else n
        else n) := rfl
    rw [hno, List.forall₂_map_right_iff, List.forall₂_same]
    intro n hn
    constructor
    · intro h
      simp [h]
    · intro h
      by_cases hc : findCorrectIconPath n.icon (buildIconMap icons) = ""
      · simp [h, hc]
      · simp [h, hc]
